import Mathlib

/-!
Verification development for the W3C Trace Context propagation core of this
repository: the `HttpTraceContext` propagator (`Inject` / `Extract`), the
traceparent / tracestate parsers, and the `TraceState` builder.

Header values and string fields are embedded as `List Char` (a C++
`nostd::string_view` is its character sequence), bytes as `Nat` below 256
with `% 256` where the C++ `uint8_t` arithmetic wraps, and C++ exceptions as
`Option` (`none` = an exception escaped to the enclosing `catch`).
-/

/-- `s[i]` on a `string_view` with the convention that reading one past the
end of a view into a `std::string` yields that string's null terminator
(value 0).  All in-bounds accesses are the plain character. -/
def charAtD (l : List Char) (i : Nat) : Char := l.getD i (Char.ofNat 0)

/-- `string_view::substr(pos, len)` for an in-range `pos`: the characters at
positions `[pos, pos+len)`, clamped to the end of the view. -/
def subList (l : List Char) (pos len : Nat) : List Char := (l.drop pos).take len

/-- The character test of the traceparent loop:
`(c>='a'&&c<='f')||(c>='0'&&c<='9')`. -/
def isHexL (c : Char) : Bool := ('a' ≤ c && c ≤ 'f') || ('0' ≤ c && c ≤ '9')

/-- One byte as decoded by `GenerateTraceIdFromString` /
`GenerateSpanIdFromString` / `GenerateTraceFlagsFromString`:
`buf = (uint8_t)a * 16; buf += (uint8_t)b;` — the raw character codes are
used (truncated to `uint8_t`), not the hex digit values. -/
def byteFromChars (a b : Char) : Nat :=
  ((a.toNat % 256) * 16 % 256 + b.toNat % 256) % 256

/-- `GenerateTraceIdFromString`: 16 bytes from a 32-character view, each byte
from two consecutive characters via `byteFromChars`. -/
def GenerateTraceIdFromString (tid : List Char) : List Nat :=
  (List.range 16).map (fun j => byteFromChars (charAtD tid (2 * j)) (charAtD tid (2 * j + 1)))

/-- `GenerateSpanIdFromString`: 8 bytes from a 16-character view. -/
def GenerateSpanIdFromString (sid : List Char) : List Nat :=
  (List.range 8).map (fun j => byteFromChars (charAtD sid (2 * j)) (charAtD sid (2 * j + 1)))

/-- `GenerateTraceFlagsFromString`: one byte from `trace_flags[0]` and
`trace_flags[1]`.  The index 1 access is performed unconditionally; on a
1-character view it reads the adjacent terminator (`charAtD` default). -/
def GenerateTraceFlagsFromString (tf : List Char) : Nat :=
  byteFromChars (charAtD tf 0) (charAtD tf 1)

/-- Modelled from the spec: `TraceFlags::IsSampled()` (the flags class is not
among the sources) — bit 0 of the flags byte. -/
def IsSampled (flags : Nat) : Bool := flags % 2 = 1

/-- A trace-state entry list as carried by a `SpanContext` (key, value). -/
abbrev TState := List (List Char × List Char)

/-- Modelled from the spec: the `SpanContext` aggregate (§3) — the value
class itself is not among the sources; it holds a 16-byte trace id, an
8-byte span id, a flags byte, a trace state and the remote-origin flag. -/
structure SpanContext where
  traceId : List Nat
  spanId : List Nat
  traceFlags : Nat
  traceState : TState
  isRemote : Bool
deriving DecidableEq, Repr

/-- Modelled from the spec: the default-constructed `trace::SpanContext()` —
all-zero identifiers, zero flags, empty trace state, not remote. -/
def SpanContext.invalid : SpanContext :=
  ⟨List.replicate 16 0, List.replicate 8 0, 0, [], false⟩

/-- Modelled from the spec: `SpanContext::IsValid()` (§3) — trace id and span
id are both not all-zero. -/
def SpanContext.IsValid (sc : SpanContext) : Bool :=
  sc.traceId ≠ List.replicate 16 0 && sc.spanId ≠ List.replicate 8 0

/-- `kHeaderElementLengths[4] = {2,32,16,2}`. -/
def lens (e : Nat) : Nat := [2, 32, 16, 2].getD e 0

/-- The mutable state of the `ExtractContextFromTraceParent` character loop:
current element number, remaining countdown for the element, start position
of the element (`none` = `-1`), and the three views captured so far. -/
structure TPSt where
  eltNum : Nat
  countdown : Int
  startPos : Option Nat
  version : List Char
  traceId : List Char
  spanId : List Char
deriving DecidableEq, Repr

/-- The `'-'` branch of the loop: on `countdown == 0` capture the current
element by `substr(start_pos, kHeaderElementLengths[elt_num])` and advance
(`countdown = kHeaderElementLengths[++elt_num]`, `start_pos = -1`);
a fourth element, a non-zero countdown, or `substr` at `start_pos == -1`
throw (`none`). -/
def tpDash (orig : List Char) (st : TPSt) : Option TPSt :=
  if st.countdown = 0 then
    match st.startPos with
    | none => none
    | some p =>
      match st.eltNum with
      | 0 => some ⟨1, (lens 1 : Nat), none, subList orig p (lens 0), st.traceId, st.spanId⟩
      | 1 => some ⟨2, (lens 2 : Nat), none, st.version, subList orig p (lens 1), st.spanId⟩
      | 2 => some ⟨3, (lens 3 : Nat), none, st.version, st.traceId, subList orig p (lens 2)⟩
      | _ => none
  else none

/-- The character loop of `ExtractContextFromTraceParent`: tabs are skipped,
`'-'` goes through `tpDash`, a lowercase-hex character sets `start_pos` (if
unset) and decrements the countdown, anything else throws. -/
def tpLoop (orig : List Char) : List Char → Nat → TPSt → Option TPSt
  | [], _, st => some st
  | c :: cs, i, st =>
    if c = '\t' then tpLoop orig cs (i + 1) st
    else if c = '-' then
      match tpDash orig st with
      | none => none
      | some st' => tpLoop orig cs (i + 1) st'
    else if isHexL c then
      tpLoop orig cs (i + 1)
        ⟨st.eltNum, st.countdown - 1, some (st.startPos.getD i), st.version, st.traceId, st.spanId⟩
    else none

/-- The up-front shape check of `ExtractContextFromTraceParent`:
`length == 55 && tp[2] == '-' && tp[35] == '-' && tp[52] == '-'`. -/
def tpShapeOk (tp : List Char) : Bool :=
  tp.length = 55 && charAtD tp 2 = '-' && charAtD tp 35 = '-' && charAtD tp 52 = '-'

/-- `ExtractContextFromTraceParent`: shape check, character loop, the final
`trace_flags = substr(start_pos, kHeaderElementLengths[elt_num])` (throwing
when `start_pos == -1`), the all-zero id and `"ff"` version rejections, and
the final remote `SpanContext`.  Every thrown exception is caught and yields
the default (invalid) context.  The source computes `trace_flags` before the
rejection checks; with `start_pos` set that `substr` cannot throw, so it is
inlined at its single use site below. -/
def ExtractContextFromTraceParent (tp : List Char) : SpanContext :=
  if tpShapeOk tp then
    match tpLoop tp tp 0 ⟨0, (lens 0 : Nat), none, [], [], []⟩ with
    | none => SpanContext.invalid
    | some st =>
      match st.startPos with
      | none => SpanContext.invalid
      | some p =>
        if st.traceId = List.replicate 32 '0' ∨ st.spanId = List.replicate 16 '0' then
          SpanContext.invalid
        else if st.version = ['f', 'f'] then
          SpanContext.invalid
        else
          ⟨GenerateTraceIdFromString st.traceId, GenerateSpanIdFromString st.spanId,
            GenerateTraceFlagsFromString (subList tp p (lens st.eltNum)), [], true⟩
  else SpanContext.invalid

/-- `isNumberOrDigit` from the TraceState listing:
`(ch >= 'a' && ch <= 'z') || (ch >= '0' && ch <= '9')`. -/
def isNumberOrDigit (ch : Char) : Bool :=
  ('a' ≤ ch && ch ≤ 'z') || ('0' ≤ ch && ch ≤ '9')

/-- The key-character loop of `validateKey` (indices `1` onward), carrying
`atSeenCount`: a character outside lowercase/digit/`_-@*/` fails, and a
second `@` fails. -/
def validateKeyLoop : List Char → Nat → Bool
  | [], _ => true
  | c :: cs, atCount =>
    if ¬ isNumberOrDigit c ∧ c ≠ '_' ∧ c ≠ '-' ∧ c ≠ '@' ∧ c ≠ '*' ∧ c ≠ '/' then false
    else if c = '@' then
      if 1 < atCount + 1 then false else validateKeyLoop cs (atCount + 1)
    else validateKeyLoop cs atCount

/-- `validateKey` from the TraceState listing: length in `[1,256]`, first
character lowercase letter or digit, remaining characters per
`validateKeyLoop` with at most one `@`. -/
def validateKey (key : List Char) : Bool :=
  if 256 < key.length ∨ key.isEmpty ∨ ¬ isNumberOrDigit (charAtD key 0) then false
  else validateKeyLoop (key.drop 1) 0

/-- `validateValue` from the TraceState listing, with its unguarded read of
`value[value.length() - 1]` made explicit: on the empty value the access is
out of bounds, modelled as `none`; otherwise the result is the boolean the
source computes (no trailing space, every character printable ASCII
excluding `,` and `=`). -/
def validateValue (value : List Char) : Option Bool :=
  if 256 < value.length then some false
  else
    match value.getLast? with
    | none => none
    | some last =>
      if last = ' ' then some false
      else some (value.all fun c =>
        ¬ (c = ',' ∨ c = '=' ∨ c.toNat < 32 ∨ 126 < c.toNat))

/-- Modelled from the spec: the value grammar of §4.2 (0–256 characters,
printable ASCII `0x20`–`0x7E` excluding `,` and `=`, no trailing space),
used by the spec-modelled `TStateSet` below. -/
def validateValueOk (value : List Char) : Bool :=
  value.length ≤ 256
    && value.all (fun c => 32 ≤ c.toNat && c.toNat ≤ 126 && c ≠ ',' && c ≠ '=')
    && (match value.getLast? with
        | none => true
        | some last => last ≠ ' ')

/-- Remove the first entry with the given key (the `entries.remove(i)` with
`break` of the Builder, and the "remove any existing entry with the same
key" of §4.2). -/
def removeFirstKey : TState → List Char → TState
  | [], _ => []
  | e :: es, k => if e.1 = k then es else e :: removeFirstKey es k

/-- Modelled from the spec: `TraceState::Set` as called by the propagator's
`AddNewMember` — the member function used there has no implementation among
the sources (the TraceState listing only provides `Builder.set`).  Per §4.2:
validate the key and value against the grammar and do nothing on failure;
otherwise remove any existing entry with the same key and insert the new
entry at the front. -/
def TStateSet (st : TState) (key value : List Char) : TState :=
  if validateKey key && validateValueOk value then
    (key, value) :: removeFirstKey st key
  else st

/-- The `'='` scan of `AddNewMember`: index of the first `'='`, if any. -/
def firstEqIdx : List Char → Nat → Option Nat
  | [], _ => none
  | c :: cs, i => if c = '=' then some i else firstEqIdx cs (i + 1)

/-- `AddNewMember`: split the member at its first `'='` into key and value
and `Set` them; a member with no `'='` is left unprocessed (the function
returns without touching the trace state). -/
def AddNewMember (trace_state : TState) (member : List Char) : TState :=
  match firstEqIdx member 0 with
  | some i => TStateSet trace_state (member.take i) (member.drop (i + 1))
  | none => trace_state

/-- The mutable state of the `ExtractTraceState` character loop: member
start/end positions (`none` = `-1`), the running element count, and the
trace state built so far. -/
structure TSSt where
  startPos : Option Nat
  endPos : Option Nat
  elementNum : Nat
  state : TState
deriving DecidableEq, Repr

/-- The character loop of `ExtractTraceState`: tabs are skipped, a comma
finishes the current member (`substr(start_pos, end_pos - start_pos + 1)`,
skipped if no member characters were seen), and any other character extends
the current member.  A `substr` with only one of the positions set would
throw (`none`); that state is unreachable from the initial state. -/
def tsLoop (orig : List Char) : List Char → Nat → TSSt → Option TSSt
  | [], _, s => some s
  | c :: cs, i, s =>
    if c = '\t' then tsLoop orig cs (i + 1) s
    else if c = ',' then
      match s.startPos, s.endPos with
      | none, none => tsLoop orig cs (i + 1) s
      | some sp, some ep =>
        tsLoop orig cs (i + 1)
          ⟨none, none, s.elementNum + 1, AddNewMember s.state (subList orig sp (ep - sp + 1))⟩
      | _, _ => none
    else tsLoop orig cs (i + 1) ⟨some (s.startPos.getD i), some i, s.elementNum, s.state⟩

/-- `ExtractTraceState`: run the loop, flush the trailing member, and throw
(`none`) when `element_num >= kTraceStateMaxMembers` (i.e. already at 32
members); otherwise the built trace state. -/
def ExtractTraceState (header : List Char) : Option TState :=
  match tsLoop header header 0 ⟨none, none, 0, []⟩ with
  | none => none
  | some s =>
    let s' : TSSt :=
      match s.startPos, s.endPos with
      | some sp, some ep =>
        ⟨none, none, s.elementNum + 1, AddNewMember s.state (subList header sp (ep - sp + 1))⟩
      | _, _ => s
    if 32 ≤ s'.elementNum then none else some s'.state

/-- Modelled from the spec: the carrier (§6) — the propagator reads exactly
the `traceparent` and `tracestate` headers out of the carrier's string map
(an absent key reads as the empty string, as with `std::map::operator[]`). -/
structure Carrier where
  traceparent : List Char
  tracestate : List Char
deriving DecidableEq, Repr

/-- Modelled from the spec: the external context store (§6, §9) — a
persistent association of string keys to span contexts; `SetValue` derives a
new context, `GetValue` finds the most recent binding. -/
abbrev ContextMap := List (String × SpanContext)

/-- Modelled from the spec: `Context::GetValue`. -/
def GetValue (ctx : ContextMap) (k : String) : Option SpanContext :=
  (ctx.find? (fun p => p.1 == k)).map Prod.snd

/-- Modelled from the spec: `Context::SetValue` — persistent derivation. -/
def SetValue (ctx : ContextMap) (k : String) (v : SpanContext) : ContextMap :=
  (k, v) :: ctx

/-- `GetCurrentSpanContext`: fetch the `"current-span"` slot.  The source
performs `nostd::get<shared_ptr<SpanContext>>` on the stored value and
dereferences it with the null check commented out; when the slot is absent
that access has no defined result, modelled as `none`. -/
def GetCurrentSpanContext (ctx : ContextMap) : Option SpanContext :=
  GetValue ctx "current-span"

/-- `SpanContextToString`: `hex_string = "00-"`, then for every trace id
byte `hex_string += std::string(it, 1)` — a string of `it` copies of the
character `'\x01'` — then `"-"`, the span id bytes the same way, and finally
`hex_string += "-" + trace_flags`, pointer arithmetic on the two-byte
literal `"-"`: offset 0 is `"-"`, offset 1 is the empty string, and any
larger flags value walks past the literal (undefined, modelled `none`). -/
def SpanContextToString (sc : SpanContext) : Option (List Char) :=
  if 2 ≤ sc.traceFlags then none
  else some ("00-".toList
    ++ (sc.traceId.map (fun b => List.replicate b (Char.ofNat 1))).flatten
    ++ '-' :: (sc.spanId.map (fun b => List.replicate b (Char.ofNat 1))).flatten
    ++ (if sc.traceFlags = 0 then ['-'] else []))

/-- `InjectImpl`: write the `SpanContextToString` rendering under
`traceparent`.  The `tracestate` branch of the source only logs — the
`setter` call for it is commented out — so the tracestate header is never
written. -/
def InjectImpl (carrier : Carrier) (sc : SpanContext) : Option Carrier :=
  match SpanContextToString sc with
  | none => none
  | some tp => some ⟨tp, carrier.tracestate⟩

/-- `Inject`: read the current span context; on an invalid one return with
no write.  When the slot is absent the unguarded access in
`GetCurrentSpanContext` has no defined result (`none`). -/
def Inject (carrier : Carrier) (ctx : ContextMap) : Option Carrier :=
  match GetCurrentSpanContext ctx with
  | none => none
  | some sc => if ¬ sc.IsValid then some carrier else InjectImpl carrier sc

/-- `ExtractImpl`: empty `traceparent` or an invalid parse short-circuit;
otherwise an empty `tracestate` keeps the parent-header context, a
successful tracestate parse replaces its trace state, and a thrown
tracestate parse (`none`) is caught, keeping the parent-header context. -/
def ExtractImpl (carrier : Carrier) : SpanContext :=
  if carrier.traceparent = [] then SpanContext.invalid
  else
    let cfph := ExtractContextFromTraceParent carrier.traceparent
    if ¬ cfph.IsValid then cfph
    else if carrier.tracestate = [] then cfph
    else
      match ExtractTraceState carrier.tracestate with
      | none => cfph
      | some ts => ⟨cfph.traceId, cfph.spanId, cfph.traceFlags, ts, true⟩

/-- `Extract`: unconditionally store the `ExtractImpl` result under the
`"current-span"` key of the context. -/
def Extract (carrier : Carrier) (ctx : ContextMap) : ContextMap :=
  SetValue ctx "current-span" (ExtractImpl carrier)

/-- The `Builder` of the TraceState listing: a parent snapshot and the
staged entries (`null` until the first edit). -/
structure Builder where
  parent : TState
  entries : Option TState
deriving DecidableEq, Repr

/-- `Builder.set` from the TraceState listing: `Entry.create(key, value)`
performs no validation in the source, so the entry is staged
unconditionally — copy the parent on first edit, drop the first entry with
the same key, and insert the new entry at the front. -/
def Builder.set (b : Builder) (key value : List Char) : Builder :=
  let entries := b.entries.getD b.parent
  ⟨b.parent, some ((key, value) :: removeFirstKey entries key)⟩

/-- A concrete valid, non-remote span context with a non-empty trace state,
exercising the round trip of claim C1. -/
def scC1 : SpanContext :=
  ⟨1 :: List.replicate 15 0, List.replicate 7 0 ++ [1], 1, [(['a'], ['b'])], false⟩

/-- C1: the claimed round trip fails on the code.  For the valid, non-remote
`scC1` with non-empty trace state, `Inject` writes the 6-character,
non-hex `traceparent` value `"00-\x01-\x01"` (bytes rendered as repeat
counts of `'\x01'`, the flags rendered as a pointer offset into `"-"`) and
never writes `tracestate`; `Extract` of that carrier then rejects the header,
so the resulting span context has neither the original trace id nor any
trace-state entries. -/
theorem C1_round_trip_code_bug :
    scC1.IsValid = true ∧ scC1.isRemote = false ∧ scC1.traceState ≠ [] ∧
    Inject ⟨[], []⟩ [("current-span", scC1)] =
      some ⟨['0', '0', '-', Char.ofNat 1, '-', Char.ofNat 1], []⟩ ∧
    (ExtractImpl ⟨['0', '0', '-', Char.ofNat 1, '-', Char.ofNat 1], []⟩).traceId ≠ scC1.traceId ∧
    (ExtractImpl ⟨['0', '0', '-', Char.ofNat 1, '-', Char.ofNat 1], []⟩).traceState = [] := by
  decide

/-- C2: decoding the trace-flags field `"01"` does not yield the byte
`0x01`: the source multiplies the raw character codes
(`'0' * 16 + '1' = 0x31 mod 256 = 49`), so the decoded byte is `49 = 0x31`,
not `1` — though its low bit happens to be set, so `IsSampled` still holds
at this particular input. -/
theorem C2_hex_decode_code_bug :
    GenerateTraceFlagsFromString ['0', '1'] = 49 ∧ (49 : Nat) ≠ 1 ∧
    IsSampled 49 = true := by
  decide

/-- C6: `Inject` on a context holding no span context under the well-known
key is not a no-op — the unguarded `nostd::get` / dereference (the null
check is commented out in the source) has no defined result (`none`),
instead of leaving the carrier unchanged.  On a context holding an invalid
span context the no-op does hold (second conjunct). -/
theorem C6_inject_no_op_code_bug :
    Inject ⟨[], []⟩ [] = none ∧
    Inject ⟨[], []⟩ [("current-span", SpanContext.invalid)] = some ⟨[], []⟩ := by
  decide

/-- C9: `Builder.set` with the grammar-invalid key `" bad"` is not a no-op:
the source's `Entry.create` performs no validation (despite the comment
"Initially create the Entry to validate input"), so the invalid entry is
staged at the front of the builder's entries. -/
theorem C9_builder_set_code_bug :
    validateKey [' ', 'b', 'a', 'd'] = false ∧
    Builder.set ⟨[], none⟩ [' ', 'b', 'a', 'd'] ['x'] =
      ⟨[], some [([' ', 'b', 'a', 'd'], ['x'])]⟩ := by
  decide

/-- C10: `validateValue` is not total on the value grammar's domain — on the
empty value (permitted by the grammar) it reads `value[value.length() - 1]`,
an out-of-bounds access (`none` in the model), instead of classifying the
empty value. -/
theorem C10_validate_value_code_bug : validateValue [] = none := rfl

/-- C5 counterexample: with an absent `traceparent`, `Extract` does not
return the input context unchanged — the empty input context comes back
with the invalid default span context stored under `"current-span"`, and a
later `GetValue` observes that value rather than the input's (absent)
one. -/
theorem C5_extract_absent_counterexample :
    Extract ⟨[], []⟩ [] ≠ ([] : ContextMap) ∧
    Extract ⟨[], []⟩ [] = [("current-span", SpanContext.invalid)] ∧
    GetValue (Extract ⟨[], []⟩ []) "current-span" = some SpanContext.invalid ∧
    GetValue ([] : ContextMap) "current-span" = none := by
  decide

/-- C5 amended: when the `traceparent` value obtained from the carrier is
absent or empty, `Extract` returns the input context extended with the
invalid default span context stored under the well-known span-context key, so
a later `GetValue` on the returned context observes that invalid span
context (not necessarily what the input context held). -/
theorem C5_extract_absent_amended (carrier : Carrier) (ctx : ContextMap)
    (h : carrier.traceparent = []) :
    Extract carrier ctx = ("current-span", SpanContext.invalid) :: ctx ∧
    GetValue (Extract carrier ctx) "current-span" = some SpanContext.invalid := by
  obtain ⟨tp, ts⟩ := carrier
  simp only [Carrier.traceparent] at h
  subst h
  constructor
  · rfl
  · rfl

/-- C5 witness: the amended statement at a concrete carrier and context. -/
theorem C5_extract_absent_witness :
    (Carrier.mk [] ['x']).traceparent = [] ∧
    (Extract ⟨[], ['x']⟩ [("k", SpanContext.invalid)] =
        ("current-span", SpanContext.invalid) :: [("k", SpanContext.invalid)] ∧
      GetValue (Extract ⟨[], ['x']⟩ [("k", SpanContext.invalid)]) "current-span" =
        some SpanContext.invalid) :=
  ⟨rfl, C5_extract_absent_amended ⟨[], ['x']⟩ [("k", SpanContext.invalid)] rfl⟩

lemma tpLoop_step_tab (orig cs : List Char) (i : Nat) (st : TPSt) :
    tpLoop orig ('\t' :: cs) i st = tpLoop orig cs (i + 1) st := rfl

lemma tpLoop_step_dash (orig cs : List Char) (i : Nat) (st : TPSt) :
    tpLoop orig ('-' :: cs) i st =
      match tpDash orig st with
      | none => none
      | some st' => tpLoop orig cs (i + 1) st' := rfl

lemma tpLoop_step_hex (orig cs : List Char) (i : Nat) (st : TPSt) {c : Char}
    (hh : isHexL c = true) :
    tpLoop orig (c :: cs) i st =
      tpLoop orig cs (i + 1)
        ⟨st.eltNum, st.countdown - 1, some (st.startPos.getD i),
          st.version, st.traceId, st.spanId⟩ := by
  have hc : ¬ c = '\t' := by rintro rfl; exact absurd hh (by decide)
  have hd : ¬ c = '-' := by rintro rfl; exact absurd hh (by decide)
  rw [tpLoop, if_neg hc, if_neg hd, if_pos hh]

lemma tpLoop_step_other (orig cs : List Char) (i : Nat) (st : TPSt) {c : Char}
    (hc : ¬ c = '\t') (hd : ¬ c = '-') (hh : ¬ isHexL c = true) :
    tpLoop orig (c :: cs) i st = none := by
  rw [tpLoop, if_neg hc, if_neg hd, if_neg hh]

lemma tpLoop_countdown_big (orig : List Char) :
    ∀ (l rest : List Char) (i : Nat) (st : TPSt),
      (l.length : Int) < st.countdown →
      tpLoop orig (l ++ '-' :: rest) i st = none := by
  intro l
  induction l with
  | nil =>
    intro rest i st h
    simp only [List.length_nil, Nat.cast_zero, List.nil_append] at h ⊢
    have hne : ¬ st.countdown = 0 := by omega
    rw [tpLoop_step_dash]
    simp [tpDash, hne]
  | cons c cs ih =>
    intro rest i st h
    simp only [List.length_cons] at h
    by_cases hc : c = '\t'
    · subst hc
      rw [List.cons_append, tpLoop_step_tab]
      exact ih rest (i + 1) st (by push_cast at h ⊢; omega)
    · by_cases hd : c = '-'
      · subst hd
        have hne : ¬ st.countdown = 0 := by push_cast at h; omega
        rw [List.cons_append, tpLoop_step_dash]
        simp [tpDash, hne]
      · by_cases hh : isHexL c = true
        · rw [List.cons_append, tpLoop_step_hex orig _ i st hh]
          exact ih rest (i + 1) _ (by push_cast at h ⊢; omega)
        · rw [List.cons_append, tpLoop_step_other orig _ i st hc hd hh]

lemma tpLoop_hexRun (orig : List Char) :
    ∀ (l rest : List Char) (i p e : Nat) (v t s : List Char),
      tpLoop orig (l ++ '-' :: rest) i ⟨e, (l.length : Int), some p, v, t, s⟩ =
        if l.all isHexL then
          match tpDash orig ⟨e, 0, some p, v, t, s⟩ with
          | none => none
          | some st' => tpLoop orig rest (i + l.length + 1) st'
        else none := by
  intro l
  induction l with
  | nil =>
    intro rest i p e v t s
    simp only [List.length_nil, Nat.cast_zero, List.nil_append, List.all_nil, if_true,
      Nat.add_zero]
    rw [tpLoop_step_dash]
  | cons c cs ih =>
    intro rest i p e v t s
    by_cases hh : isHexL c = true
    · rw [List.cons_append, tpLoop_step_hex orig _ i _ hh]
      have hcast : ((c :: cs).length : Int) - 1 = (cs.length : Int) := by simp
      simp only [hcast, Option.getD_some]
      rw [ih rest (i + 1) p e v t s]
      by_cases hall : cs.all isHexL = true
      · simp only [List.all_cons, hh, hall, Bool.true_and, if_true]
        have hidx : i + 1 + cs.length + 1 = i + (c :: cs).length + 1 := by
          simp only [List.length_cons]; omega
        rw [hidx]
      · simp only [List.all_cons, hh, Bool.true_and, hall, if_false]
        simp [hall]
    · have hall : ¬ ((c :: cs).all isHexL = true) := by
        simp [List.all_cons, hh]
      rw [if_neg hall]
      by_cases hc : c = '\t'
      · subst hc
        rw [List.cons_append, tpLoop_step_tab]
        exact tpLoop_countdown_big orig cs rest (i + 1) _ (by simp)
      · by_cases hd : c = '-'
        · subst hd
          have hne : ¬ ((cs.length : Int) + 1 = 0) := by omega
          rw [List.cons_append, tpLoop_step_dash]
          simp only [List.length_cons, Nat.cast_add, Nat.cast_one]
          simp [tpDash, hne]
        · rw [List.cons_append, tpLoop_step_other orig _ i _ hc hd hh]

lemma tpLoop_seg (orig : List Char) (l rest : List Char) (i e : Nat) (v t s : List Char)
    (hne : l ≠ []) :
    tpLoop orig (l ++ '-' :: rest) i ⟨e, (l.length : Int), none, v, t, s⟩ =
      if l.all isHexL then
        match tpDash orig ⟨e, 0, some i, v, t, s⟩ with
        | none => none
        | some st' => tpLoop orig rest (i + l.length + 1) st'
      else none := by
  obtain ⟨c, cs, rfl⟩ : ∃ c cs, l = c :: cs := by
    cases l with
    | nil => exact absurd rfl hne
    | cons c cs => exact ⟨c, cs, rfl⟩
  by_cases hh : isHexL c = true
  · rw [List.cons_append, tpLoop_step_hex orig _ i _ hh]
    have hcast : ((c :: cs).length : Int) - 1 = (cs.length : Int) := by simp
    simp only [hcast, Option.getD_none]
    rw [tpLoop_hexRun orig cs rest (i + 1) i e v t s]
    by_cases hall : cs.all isHexL = true
    · simp only [List.all_cons, hh, hall, Bool.true_and, if_true]
      have hidx : i + 1 + cs.length + 1 = i + (c :: cs).length + 1 := by
        simp only [List.length_cons]; omega
      rw [hidx]
    · simp only [List.all_cons, hh, Bool.true_and, hall, if_false]
      simp [hall]
  · have hall : ¬ ((c :: cs).all isHexL = true) := by
      simp [List.all_cons, hh]
    rw [if_neg hall]
    by_cases hc : c = '\t'
    · subst hc
      rw [List.cons_append, tpLoop_step_tab]
      exact tpLoop_countdown_big orig cs rest (i + 1) _ (by simp)
    · by_cases hd : c = '-'
      · subst hd
        have hne2 : ¬ ((cs.length : Int) + 1 = 0) := by omega
        rw [List.cons_append, tpLoop_step_dash]
        simp only [List.length_cons, Nat.cast_add, Nat.cast_one]
        simp [tpDash, hne2]
      · rw [List.cons_append, tpLoop_step_other orig _ i _ hc hd hh]

lemma charAtD_eq_getElem (l : List Char) (i : Nat) (h : i < l.length) :
    charAtD l i = l[i] := List.getD_eq_getElem l (Char.ofNat 0) h

lemma charAtD_eq_get (l : List Char) (i : Nat) (h : i < l.length) :
    charAtD l i = l.get ⟨i, h⟩ := by
  rw [List.get_eq_getElem]
  exact List.getD_eq_getElem l (Char.ofNat 0) h

lemma tp_decomp (l : List Char) (h55 : l.length = 55) (h2 : charAtD l 2 = '-')
    (h35 : charAtD l 35 = '-') (h52 : charAtD l 52 = '-') :
    l = l.take 2 ++ '-' :: ((l.drop 3).take 32 ++ '-' :: ((l.drop 36).take 16 ++ '-' :: l.drop 53)) := by
  have e2 : l.drop 2 = '-' :: l.drop 3 := by
    rw [List.drop_eq_getElem_cons (by omega : 2 < l.length)]
    rw [← charAtD_eq_getElem l 2 (by omega), h2]
  have e35 : l.drop 35 = '-' :: l.drop 36 := by
    rw [List.drop_eq_getElem_cons (by omega : 35 < l.length)]
    rw [← charAtD_eq_getElem l 35 (by omega), h35]
  have e52 : l.drop 52 = '-' :: l.drop 53 := by
    rw [List.drop_eq_getElem_cons (by omega : 52 < l.length)]
    rw [← charAtD_eq_getElem l 52 (by omega), h52]
  calc l = l.take 2 ++ l.drop 2 := (List.take_append_drop 2 l).symm
    _ = l.take 2 ++ '-' :: l.drop 3 := by rw [e2]
    _ = l.take 2 ++ '-' :: ((l.drop 3).take 32 ++ (l.drop 3).drop 32) := by
        rw [List.take_append_drop]
    _ = l.take 2 ++ '-' :: ((l.drop 3).take 32 ++ l.drop 35) := by
        rw [List.drop_drop]
    _ = l.take 2 ++ '-' :: ((l.drop 3).take 32 ++ '-' :: l.drop 36) := by rw [e35]
    _ = l.take 2 ++ '-' :: ((l.drop 3).take 32 ++ '-' :: ((l.drop 36).take 16 ++ (l.drop 36).drop 16)) := by
        rw [List.take_append_drop]
    _ = l.take 2 ++ '-' :: ((l.drop 3).take 32 ++ '-' :: ((l.drop 36).take 16 ++ l.drop 52)) := by
        rw [List.drop_drop]
    _ = _ := by rw [e52]

lemma tp_chain_gen (orig B0 B1 B2 B3 : List Char)
    (hl0 : B0.length = 2) (hl1 : B1.length = 32) (hl2 : B2.length = 16)
    (hs0 : subList orig 0 (lens 0) = B0) (hs1 : subList orig 3 (lens 1) = B1)
    (hs2 : subList orig 36 (lens 2) = B2) :
    tpLoop orig (B0 ++ '-' :: (B1 ++ '-' :: (B2 ++ '-' :: B3))) 0
        ⟨0, (B0.length : Int), none, [], [], []⟩ =
      if B0.all isHexL && B1.all isHexL && B2.all isHexL then
        tpLoop orig B3 53 ⟨3, ((lens 3 : Nat) : Int), none, B0, B1, B2⟩
      else none := by
  rw [tpLoop_seg orig B0 _ 0 0 [] [] [] (by rintro rfl; simp at hl0)]
  by_cases a0 : B0.all isHexL = true
  · rw [if_pos a0]
    have hd0 : tpDash orig ⟨0, 0, some 0, [], [], []⟩ =
        some ⟨1, ((lens 1 : Nat) : Int), none, B0, [], []⟩ := by
      rw [← hs0]; rfl
    rw [hd0]
    show tpLoop orig (B1 ++ '-' :: (B2 ++ '-' :: B3)) (0 + B0.length + 1)
        ⟨1, ((lens 1 : Nat) : Int), none, B0, [], []⟩ = _
    have hi1 : 0 + B0.length + 1 = 3 := by omega
    have hcd1 : ((lens 1 : Nat) : Int) = (B1.length : Int) := by rw [hl1]; rfl
    rw [hi1, hcd1]
    rw [tpLoop_seg orig B1 _ 3 1 B0 [] [] (by rintro rfl; simp at hl1)]
    by_cases a1 : B1.all isHexL = true
    · rw [if_pos a1]
      have hd1 : tpDash orig ⟨1, 0, some 3, B0, [], []⟩ =
          some ⟨2, ((lens 2 : Nat) : Int), none, B0, B1, []⟩ := by
        rw [← hs1]; rfl
      rw [hd1]
      show tpLoop orig (B2 ++ '-' :: B3) (3 + B1.length + 1)
          ⟨2, ((lens 2 : Nat) : Int), none, B0, B1, []⟩ = _
      have hi2 : 3 + B1.length + 1 = 36 := by omega
      have hcd2 : ((lens 2 : Nat) : Int) = (B2.length : Int) := by rw [hl2]; rfl
      rw [hi2, hcd2]
      rw [tpLoop_seg orig B2 _ 36 2 B0 B1 [] (by rintro rfl; simp at hl2)]
      by_cases a2 : B2.all isHexL = true
      · rw [if_pos a2]
        have hd2 : tpDash orig ⟨2, 0, some 36, B0, B1, []⟩ =
            some ⟨3, ((lens 3 : Nat) : Int), none, B0, B1, B2⟩ := by
          rw [← hs2]; rfl
        rw [hd2]
        show tpLoop orig B3 (36 + B2.length + 1)
            ⟨3, ((lens 3 : Nat) : Int), none, B0, B1, B2⟩ = _
        have hi3 : 36 + B2.length + 1 = 53 := by omega
        rw [hi3]
        simp [a0, a1, a2]
      · rw [if_neg a2]
        simp [a0, a1, a2]
    · rw [if_neg a1]
      simp [a0, a1]
  · rw [if_neg a0]
    simp [a0]

lemma tp_run (l : List Char) (h55 : l.length = 55) (h2 : charAtD l 2 = '-')
    (h35 : charAtD l 35 = '-') (h52 : charAtD l 52 = '-') :
    tpLoop l l 0 ⟨0, ((lens 0 : Nat) : Int), none, [], [], []⟩ =
      if (l.take 2).all isHexL && ((l.drop 3).take 32).all isHexL
          && ((l.drop 36).take 16).all isHexL then
        tpLoop l (l.drop 53) 53
          ⟨3, ((lens 3 : Nat) : Int), none, l.take 2, (l.drop 3).take 32, (l.drop 36).take 16⟩
      else none := by
  have hl0 : (l.take 2).length = 2 := by rw [List.length_take]; omega
  have hl1 : ((l.drop 3).take 32).length = 32 := by
    rw [List.length_take, List.length_drop]; omega
  have hl2 : ((l.drop 36).take 16).length = 16 := by
    rw [List.length_take, List.length_drop]; omega
  have harg := congrArg
    (fun x => tpLoop l x 0 ⟨0, ((lens 0 : Nat) : Int), none, [], [], []⟩)
    (tp_decomp l h55 h2 h35 h52)
  simp only at harg
  rw [harg]
  have hcd : ((lens 0 : Nat) : Int) = ((l.take 2).length : Int) := by rw [hl0]; rfl
  rw [hcd]
  exact tp_chain_gen l _ _ _ _ hl0 hl1 hl2 rfl rfl rfl

lemma tpDash_cd2 (orig : List Char) (sp : Option Nat) (v t s : List Char) :
    tpDash orig ⟨3, ((lens 3 : Nat) : Int), sp, v, t, s⟩ = none := rfl

lemma tpDash_cd1 (orig : List Char) (sp : Option Nat) (v t s : List Char) :
    tpDash orig ⟨3, ((lens 3 : Nat) : Int) - 1, sp, v, t, s⟩ = none := rfl

lemma tpTail_bad (orig : List Char) (x y : Char) (i : Nat) (v t s : List Char)
    (h : (¬ isHexL x = true ∧ x ≠ '\t') ∨ (¬ isHexL y = true ∧ y ≠ '\t')) :
    tpLoop orig [x, y] i ⟨3, ((lens 3 : Nat) : Int), none, v, t, s⟩ = none := by
  by_cases hx : x = '\t'
  · subst hx
    rw [tpLoop_step_tab]
    rcases h with ⟨_, hne⟩ | ⟨hyh, hyt⟩
    · exact absurd rfl hne
    · by_cases hy : y = '-'
      · subst hy
        rw [tpLoop_step_dash, tpDash_cd2]
      · rw [tpLoop_step_other orig _ _ _ hyt hy hyh]
  · by_cases hxd : x = '-'
    · subst hxd
      rw [tpLoop_step_dash, tpDash_cd2]
    · by_cases hxh : isHexL x = true
      · rw [tpLoop_step_hex orig _ i _ hxh]
        rcases h with ⟨hc, _⟩ | ⟨hyh, hyt⟩
        · exact absurd hxh hc
        · by_cases hy : y = '\t'
          · exact absurd hy hyt
          · by_cases hyd : y = '-'
            · subst hyd
              rw [tpLoop_step_dash, tpDash_cd1]
            · rw [tpLoop_step_other orig _ _ _ hy hyd hyh]
      · rw [tpLoop_step_other orig _ i _ hx hxd hxh]

lemma tpTail_shape (orig : List Char) (x y : Char) (i : Nat) (v t s : List Char) :
    tpLoop orig [x, y] i ⟨3, ((lens 3 : Nat) : Int), none, v, t, s⟩ = none ∨
    ∃ cd sp, tpLoop orig [x, y] i ⟨3, ((lens 3 : Nat) : Int), none, v, t, s⟩ =
      some ⟨3, cd, sp, v, t, s⟩ := by
  by_cases hx : x = '\t'
  · subst hx
    rw [tpLoop_step_tab]
    by_cases hy : y = '\t'
    · subst hy
      rw [tpLoop_step_tab]
      exact Or.inr ⟨_, _, rfl⟩
    · by_cases hyd : y = '-'
      · subst hyd
        rw [tpLoop_step_dash, tpDash_cd2]
        exact Or.inl rfl
      · by_cases hyh : isHexL y = true
        · rw [tpLoop_step_hex orig _ _ _ hyh]
          exact Or.inr ⟨_, _, rfl⟩
        · rw [tpLoop_step_other orig _ _ _ hy hyd hyh]
          exact Or.inl rfl
  · by_cases hxd : x = '-'
    · subst hxd
      rw [tpLoop_step_dash, tpDash_cd2]
      exact Or.inl rfl
    · by_cases hxh : isHexL x = true
      · rw [tpLoop_step_hex orig _ i _ hxh]
        by_cases hy : y = '\t'
        · subst hy
          rw [tpLoop_step_tab]
          exact Or.inr ⟨_, _, rfl⟩
        · by_cases hyd : y = '-'
          · subst hyd
            rw [tpLoop_step_dash, tpDash_cd1]
            exact Or.inl rfl
          · by_cases hyh : isHexL y = true
            · rw [tpLoop_step_hex orig _ _ _ hyh]
              exact Or.inr ⟨_, _, rfl⟩
            · rw [tpLoop_step_other orig _ _ _ hy hyd hyh]
              exact Or.inl rfl
      · rw [tpLoop_step_other orig _ i _ hx hxd hxh]
        exact Or.inl rfl

lemma tpShapeOk_true (l : List Char) (h55 : l.length = 55) (h2 : charAtD l 2 = '-')
    (h35 : charAtD l 35 = '-') (h52 : charAtD l 52 = '-') : tpShapeOk l = true := by
  simp [tpShapeOk, h55, h2, h35, h52]

lemma ecftp_invalid_of_loop_none (l : List Char) (hshape : tpShapeOk l = true)
    (hnone : tpLoop l l 0 ⟨0, ((lens 0 : Nat) : Int), none, [], [], []⟩ = none) :
    ExtractContextFromTraceParent l = SpanContext.invalid := by
  unfold ExtractContextFromTraceParent
  rw [if_pos hshape, hnone]

lemma badchar_take (l : List Char) (n j : Nat) (p : Nat) (hlen : p + n ≤ l.length)
    (hj1 : p ≤ j) (hj2 : j < p + n) (hbad : ¬ isHexL (charAtD l j) = true) :
    ¬ ((l.drop p).take n).all isHexL = true := by
  intro hall
  apply hbad
  have hj2 : j < l.length := by omega
  have hidx : j - p < ((l.drop p).take n).length := by
    rw [List.length_take, List.length_drop]; omega
  have hmem : charAtD l j ∈ (l.drop p).take n := by
    rw [charAtD_eq_get l j hj2]
    have he : ((l.drop p).take n).get ⟨j - p, hidx⟩ = l.get ⟨j, hj2⟩ := by
      simp only [List.get_eq_getElem]
      rw [List.getElem_take, List.getElem_drop]
      congr 1
      omega
    rw [← he]
    exact List.get_mem _ _ hidx
  exact List.all_eq_true.mp hall _ hmem

lemma drop53_pair (l : List Char) (h55 : l.length = 55) :
    ∃ x y, l.drop 53 = [x, y] := by
  have hlen : (l.drop 53).length = 2 := by rw [List.length_drop]; omega
  match hd : l.drop 53, hlen' : (l.drop 53).length, hlen with
  | [x, y], _, _ => exact ⟨x, y, rfl⟩
  | [], h, hh => simp [hd] at hlen
  | [x], h, hh => simp [hd] at hlen
  | x :: y :: z :: r, h, hh => simp [hd] at hlen

lemma charAt53 (l : List Char) (h55 : l.length = 55) (x y : Char)
    (hxy : l.drop 53 = [x, y]) : charAtD l 53 = x ∧ charAtD l 54 = y := by
  constructor
  · rw [charAtD_eq_get l 53 (by omega)]
    have hgd : l.get ⟨53, by omega⟩ = (l.drop 53).get ⟨0, by simp [hxy]⟩ := by
      simp only [List.get_eq_getElem]
      rw [List.getElem_drop]
    rw [hgd, List.get_of_eq hxy]
    rfl
  · rw [charAtD_eq_get l 54 (by omega)]
    have hgd : l.get ⟨54, by omega⟩ = (l.drop 53).get ⟨1, by simp [hxy]⟩ := by
      simp only [List.get_eq_getElem]
      rw [List.getElem_drop]
    rw [hgd, List.get_of_eq hxy]
    rfl

lemma ecftp_invalid_of_badchar (l : List Char) (j : Nat)
    (h55 : l.length = 55) (h2 : charAtD l 2 = '-') (h35 : charAtD l 35 = '-')
    (h52 : charAtD l 52 = '-')
    (hj : j < 2 ∨ (3 ≤ j ∧ j < 35) ∨ (36 ≤ j ∧ j < 52) ∨ (53 ≤ j ∧ j < 55))
    (hbad : ¬ isHexL (charAtD l j) = true) (htab : charAtD l j ≠ '\t') :
    ExtractContextFromTraceParent l = SpanContext.invalid := by
  have hshape := tpShapeOk_true l h55 h2 h35 h52
  have hrun := tp_run l h55 h2 h35 h52
  by_cases hall : ((l.take 2).all isHexL && ((l.drop 3).take 32).all isHexL
      && ((l.drop 36).take 16).all isHexL) = true
  · rw [if_pos hall] at hrun
    simp only [Bool.and_eq_true] at hall
    obtain ⟨⟨a0, a1⟩, a2⟩ := hall
    rcases hj with hj | hj | hj | hj
    · exact absurd a0 (badchar_take l 2 j 0 (by omega) (by omega) (by omega) hbad)
    · exact absurd a1 (badchar_take l 32 j 3 (by omega) (by omega) (by omega) hbad)
    · exact absurd a2 (badchar_take l 16 j 36 (by omega) (by omega) (by omega) hbad)
    · obtain ⟨x, y, hxy⟩ := drop53_pair l h55
      rw [hxy] at hrun
      obtain ⟨hx, hy⟩ := charAt53 l h55 x y hxy
      have hj2 : j = 53 ∨ j = 54 := by omega
      have hbadxy : (¬ isHexL x = true ∧ x ≠ '\t') ∨ (¬ isHexL y = true ∧ y ≠ '\t') := by
        rcases hj2 with rfl | rfl
        · rw [hx] at hbad htab
          exact Or.inl ⟨hbad, htab⟩
        · rw [hy] at hbad htab
          exact Or.inr ⟨hbad, htab⟩
      have hnone := tpTail_bad l x y 53 (l.take 2) ((l.drop 3).take 32)
        ((l.drop 36).take 16) hbadxy
      exact ecftp_invalid_of_loop_none l hshape (hrun.trans hnone)
  · rw [if_neg hall] at hrun
    exact ecftp_invalid_of_loop_none l hshape hrun

lemma ecftp_invalid_of_reject (l : List Char)
    (h55 : l.length = 55) (h2 : charAtD l 2 = '-') (h35 : charAtD l 35 = '-')
    (h52 : charAtD l 52 = '-')
    (hrej : l.take 2 = ['f', 'f'] ∨ (l.drop 3).take 32 = List.replicate 32 '0'
      ∨ (l.drop 36).take 16 = List.replicate 16 '0') :
    ExtractContextFromTraceParent l = SpanContext.invalid := by
  have hshape := tpShapeOk_true l h55 h2 h35 h52
  have hrun := tp_run l h55 h2 h35 h52
  by_cases hall : ((l.take 2).all isHexL && ((l.drop 3).take 32).all isHexL
      && ((l.drop 36).take 16).all isHexL) = true
  · rw [if_pos hall] at hrun
    obtain ⟨x, y, hxy⟩ := drop53_pair l h55
    rw [hxy] at hrun
    rcases tpTail_shape l x y 53 (l.take 2) ((l.drop 3).take 32) ((l.drop 36).take 16)
      with htail | ⟨cd, sp, htail⟩
    · exact ecftp_invalid_of_loop_none l hshape (hrun.trans htail)
    · unfold ExtractContextFromTraceParent
      rw [if_pos hshape, hrun.trans htail]
      cases sp with
      | none => rfl
      | some p =>
        show (if (l.drop 3).take 32 = List.replicate 32 '0'
              ∨ (l.drop 36).take 16 = List.replicate 16 '0' then SpanContext.invalid
            else if l.take 2 = ['f', 'f'] then SpanContext.invalid
            else _) = SpanContext.invalid
        by_cases hz : ((l.drop 3).take 32 = List.replicate 32 '0'
            ∨ (l.drop 36).take 16 = List.replicate 16 '0')
        · rw [if_pos hz]
        · rw [if_neg hz]
          have hv : l.take 2 = ['f', 'f'] := by tauto
          rw [if_pos hv]
  · rw [if_neg hall] at hrun
    exact ecftp_invalid_of_loop_none l hshape hrun

lemma extractImpl_invalid (tp ts : List Char)
    (hinv : ExtractContextFromTraceParent tp = SpanContext.invalid) :
    ExtractImpl ⟨tp, ts⟩ = SpanContext.invalid := by
  by_cases he : tp = []
  · subst he; rfl
  · unfold ExtractImpl
    rw [if_neg (show ¬ (Carrier.mk tp ts).traceparent = [] from he)]
    show (if ¬ (ExtractContextFromTraceParent tp).IsValid = true
        then ExtractContextFromTraceParent tp else _) = SpanContext.invalid
    rw [hinv, if_pos (show ¬ SpanContext.invalid.IsValid = true by decide)]

/-- Concrete traceparent value for C3: correct length, dashes in place, but
a tab character at position 54 (inside the trace-flags field). -/
def tpC3 : List Char :=
  "00-aaaaaaaaaaaaaaaaaaaaaaaaaaaaaaaa-bbbbbbbbbbbbbbbb-0".toList ++ ['\t']

/-- C3 counterexample: `tpC3` has length 55, dashes at 2/35/52, and a
character outside `[0-9a-f]` (a tab) at position 54 ∈ [53,55) — the claim
says it is treated as absent — yet the code accepts it: the extracted span
context is valid (trace id decoded from the `'a'` run), and `Extract`
installs that header-derived context, not the invalid default. -/
theorem C3_traceparent_grammar_counterexample :
    tpC3.length = 55 ∧ charAtD tpC3 2 = '-' ∧ charAtD tpC3 35 = '-' ∧
    charAtD tpC3 52 = '-' ∧ (53 ≤ 54 ∧ 54 < 55) ∧
    ¬ isHexL (charAtD tpC3 54) = true ∧
    (ExtractContextFromTraceParent tpC3).IsValid = true ∧
    ExtractImpl ⟨tpC3, []⟩ ≠ SpanContext.invalid ∧
    Extract ⟨tpC3, []⟩ [] ≠ SetValue [] "current-span" SpanContext.invalid := by
  decide

/-- C3 amended: a traceparent of length ≠ 55, or with a misplaced delimiter,
or with a character that is outside `[0-9a-f]` *and is not a tab* in the
ranges [0,2), [3,35), [36,52), [53,55), is treated as absent: `ExtractImpl`
yields the invalid default span context and `Extract` installs exactly that
(the same outcome as for an absent header).  The tab exclusion is forced by
the counterexample: the loop skips tabs, and a tab in the trace-flags field
escapes rejection. -/
theorem C3_traceparent_grammar_amended (tp ts : List Char) (ctx : ContextMap) (j : Nat)
    (h : tp.length ≠ 55 ∨ charAtD tp 2 ≠ '-' ∨ charAtD tp 35 ≠ '-' ∨ charAtD tp 52 ≠ '-' ∨
      ((j < 2 ∨ (3 ≤ j ∧ j < 35) ∨ (36 ≤ j ∧ j < 52) ∨ (53 ≤ j ∧ j < 55)) ∧
        ¬ isHexL (charAtD tp j) = true ∧ charAtD tp j ≠ '\t')) :
    ExtractImpl ⟨tp, ts⟩ = SpanContext.invalid ∧
    Extract ⟨tp, ts⟩ ctx = SetValue ctx "current-span" SpanContext.invalid := by
  have hinv : ExtractContextFromTraceParent tp = SpanContext.invalid := by
    by_cases h55 : tp.length = 55
    · by_cases hc2 : charAtD tp 2 = '-'
      · by_cases hc35 : charAtD tp 35 = '-'
        · by_cases hc52 : charAtD tp 52 = '-'
          · rcases h with h | h | h | h | ⟨hj, hbad, htab⟩
            · exact absurd h55 h
            · exact absurd hc2 h
            · exact absurd hc35 h
            · exact absurd hc52 h
            · exact ecftp_invalid_of_badchar tp j h55 hc2 hc35 hc52 hj hbad htab
          · unfold ExtractContextFromTraceParent
            rw [if_neg (show ¬ tpShapeOk tp = true by simp [tpShapeOk, hc52])]
        · unfold ExtractContextFromTraceParent
          rw [if_neg (show ¬ tpShapeOk tp = true by simp [tpShapeOk, hc35])]
      · unfold ExtractContextFromTraceParent
        rw [if_neg (show ¬ tpShapeOk tp = true by simp [tpShapeOk, hc2])]
    · unfold ExtractContextFromTraceParent
      rw [if_neg (show ¬ tpShapeOk tp = true by simp [tpShapeOk, h55])]
  have h1 := extractImpl_invalid tp ts hinv
  refine ⟨h1, ?_⟩
  unfold Extract
  rw [h1]

/-- Concrete witness input for the amended C3: the canonical traceparent with
a `'z'` at position 10 (inside the trace-id field). -/
def tpC3w : List Char := "00-4bf92f3z77b34da6a3ce929d0e0e4736-00f067aa0ba902b7-01".toList

/-- C3 witness: the amended statement applied at `tpC3w` with `j = 10`. -/
theorem C3_traceparent_grammar_witness :
    (tpC3w.length ≠ 55 ∨ charAtD tpC3w 2 ≠ '-' ∨ charAtD tpC3w 35 ≠ '-' ∨
      charAtD tpC3w 52 ≠ '-' ∨
      ((10 < 2 ∨ (3 ≤ 10 ∧ 10 < 35) ∨ (36 ≤ 10 ∧ 10 < 52) ∨ (53 ≤ 10 ∧ 10 < 55)) ∧
        ¬ isHexL (charAtD tpC3w 10) = true ∧ charAtD tpC3w 10 ≠ '\t')) ∧
    (ExtractImpl ⟨tpC3w, []⟩ = SpanContext.invalid ∧
      Extract ⟨tpC3w, []⟩ [] = SetValue [] "current-span" SpanContext.invalid) :=
  ⟨by decide, C3_traceparent_grammar_amended tpC3w [] [] 10 (by decide)⟩

/-- C7: a traceparent that passes the positional grammar check (length 55,
dashes at 2/35/52) whose version field is `"ff"`, or whose trace-id field is
all-zero hex, or whose span-id field is all-zero hex, is treated as absent,
whatever the other fields hold: `ExtractImpl` yields the invalid default and
`Extract` installs exactly that. -/
theorem C7_version_zero_id_reject (tp ts : List Char) (ctx : ContextMap)
    (h55 : tp.length = 55) (h2 : charAtD tp 2 = '-') (h35 : charAtD tp 35 = '-')
    (h52 : charAtD tp 52 = '-')
    (hrej : subList tp 0 2 = ['f', 'f'] ∨ subList tp 3 32 = List.replicate 32 '0'
      ∨ subList tp 36 16 = List.replicate 16 '0') :
    ExtractImpl ⟨tp, ts⟩ = SpanContext.invalid ∧
    Extract ⟨tp, ts⟩ ctx = SetValue ctx "current-span" SpanContext.invalid := by
  have hinv := ecftp_invalid_of_reject tp h55 h2 h35 h52 hrej
  have h1 := extractImpl_invalid tp ts hinv
  refine ⟨h1, ?_⟩
  unfold Extract
  rw [h1]

/-- Concrete witness input for C7: the canonical traceparent with version
field `"ff"`. -/
def tpC7w : List Char := "ff-4bf92f3577b34da6a3ce929d0e0e4736-00f067aa0ba902b7-01".toList

/-- C7 witness: the statement applied at `tpC7w`. -/
theorem C7_version_zero_id_reject_witness :
    (tpC7w.length = 55 ∧ charAtD tpC7w 2 = '-' ∧ charAtD tpC7w 35 = '-' ∧
      charAtD tpC7w 52 = '-' ∧
      (subList tpC7w 0 2 = ['f', 'f'] ∨ subList tpC7w 3 32 = List.replicate 32 '0'
        ∨ subList tpC7w 36 16 = List.replicate 16 '0')) ∧
    (ExtractImpl ⟨tpC7w, []⟩ = SpanContext.invalid ∧
      Extract ⟨tpC7w, []⟩ [] = SetValue [] "current-span" SpanContext.invalid) :=
  ⟨⟨by decide, by decide, by decide, by decide, by decide⟩,
    C7_version_zero_id_reject tpC7w [] [] (by decide) (by decide) (by decide) (by decide)
      (by decide)⟩

/-- Wire text of one tracestate member: `key=value`. -/
def memberText (m : List Char × List Char) : List Char := m.1 ++ '=' :: m.2

/-- Members joined with commas, in wire order. -/
def joinComma : List (List Char) → List Char
  | [] => []
  | [t] => t
  | t :: ts => t ++ ',' :: joinComma ts

lemma tsLoop_step_tab (orig cs : List Char) (i : Nat) (s : TSSt) :
    tsLoop orig ('\t' :: cs) i s = tsLoop orig cs (i + 1) s := rfl

lemma tsLoop_step_comma_mid (orig cs : List Char) (i sp ep n : Nat) (st : TState) :
    tsLoop orig (',' :: cs) i ⟨some sp, some ep, n, st⟩ =
      tsLoop orig cs (i + 1)
        ⟨none, none, n + 1, AddNewMember st (subList orig sp (ep - sp + 1))⟩ := rfl

lemma tsLoop_step_char (orig cs : List Char) (i : Nat) (s : TSSt) {c : Char}
    (hc : ¬ c = '\t') (hcm : ¬ c = ',') :
    tsLoop orig (c :: cs) i s =
      tsLoop orig cs (i + 1) ⟨some (s.startPos.getD i), some i, s.elementNum, s.state⟩ := by
  rw [tsLoop, if_neg hc, if_neg hcm]

lemma tsLoop_token_mid (orig : List Char) :
    ∀ (tok rest : List Char) (i sp n : Nat) (st : TState), 1 ≤ i →
      (∀ c ∈ tok, c ≠ '\t' ∧ c ≠ ',') →
      tsLoop orig (tok ++ ',' :: rest) i ⟨some sp, some (i - 1), n, st⟩ =
        tsLoop orig rest (i + tok.length + 1)
          ⟨none, none, n + 1, AddNewMember st (subList orig sp ((i + tok.length - 1) - sp + 1))⟩ := by
  intro tok
  induction tok with
  | nil =>
    intro rest i sp n st hi htok
    rw [List.nil_append, tsLoop_step_comma_mid]
    congr 2
  | cons c tok' ih =>
    intro rest i sp n st hi htok
    have hc := htok c (by simp)
    rw [List.cons_append, tsLoop_step_char orig _ i _ hc.1 hc.2]
    simp only [Option.getD_some, TSSt.startPos, TSSt.elementNum, TSSt.state]
    have hi' : i = (i + 1) - 1 := by omega
    rw [show (⟨some sp, some i, n, st⟩ : TSSt) = ⟨some sp, some ((i + 1) - 1), n, st⟩ by rw [← hi']]
    rw [ih rest (i + 1) sp n st (by omega) (fun d hd => htok d (by simp [hd]))]
    have e1 : i + 1 + tok'.length + 1 = i + (c :: tok').length + 1 := by
      simp only [List.length_cons]; omega
    have e2 : i + 1 + tok'.length - 1 = i + (c :: tok').length - 1 := by
      simp only [List.length_cons]; omega
    rw [e1, e2]

lemma tsLoop_last_mid (orig : List Char) :
    ∀ (tok : List Char) (i sp n : Nat) (st : TState), 1 ≤ i →
      (∀ c ∈ tok, c ≠ '\t' ∧ c ≠ ',') →
      tsLoop orig tok i ⟨some sp, some (i - 1), n, st⟩ =
        some ⟨some sp, some (i + tok.length - 1), n, st⟩ := by
  intro tok
  induction tok with
  | nil =>
    intro i sp n st hi htok
    rfl
  | cons c tok' ih =>
    intro i sp n st hi htok
    have hc := htok c (by simp)
    rw [tsLoop_step_char orig _ i _ hc.1 hc.2]
    simp only [Option.getD_some, TSSt.startPos, TSSt.elementNum, TSSt.state]
    rw [show (⟨some sp, some i, n, st⟩ : TSSt) = ⟨some sp, some ((i + 1) - 1), n, st⟩ by simp]
    rw [ih (i + 1) sp n st (by omega) (fun d hd => htok d (by simp [hd]))]
    have e1 : i + 1 + tok'.length - 1 = i + (c :: tok').length - 1 := by
      simp only [List.length_cons]; omega
    rw [e1]

lemma tsLoop_token_fresh (orig : List Char) (tok rest : List Char) (i n : Nat) (st : TState)
    (hne : tok ≠ []) (htok : ∀ c ∈ tok, c ≠ '\t' ∧ c ≠ ',') :
    tsLoop orig (tok ++ ',' :: rest) i ⟨none, none, n, st⟩ =
      tsLoop orig rest (i + tok.length + 1)
        ⟨none, none, n + 1, AddNewMember st (subList orig i tok.length)⟩ := by
  obtain ⟨c, tok', rfl⟩ : ∃ c tok', tok = c :: tok' := by
    cases tok with
    | nil => exact absurd rfl hne
    | cons c tok' => exact ⟨c, tok', rfl⟩
  have hc := htok c (by simp)
  rw [List.cons_append, tsLoop_step_char orig _ i _ hc.1 hc.2]
  simp only [Option.getD_none, TSSt.startPos, TSSt.elementNum, TSSt.state]
  rw [show (⟨some i, some i, n, st⟩ : TSSt) = ⟨some i, some ((i + 1) - 1), n, st⟩ by simp]
  rw [tsLoop_token_mid orig tok' rest (i + 1) i n st (by omega)
    (fun d hd => htok d (by simp [hd]))]
  have e1 : i + 1 + tok'.length + 1 = i + (c :: tok').length + 1 := by
    simp only [List.length_cons]; omega
  have e2 : i + 1 + tok'.length - 1 - i + 1 = (c :: tok').length := by
    simp only [List.length_cons]; omega
  rw [e1, e2]

lemma tsLoop_last_fresh (orig : List Char) (tok : List Char) (i n : Nat) (st : TState)
    (hne : tok ≠ []) (htok : ∀ c ∈ tok, c ≠ '\t' ∧ c ≠ ',') :
    tsLoop orig tok i ⟨none, none, n, st⟩ =
      some ⟨some i, some (i + tok.length - 1), n, st⟩ := by
  obtain ⟨c, tok', rfl⟩ : ∃ c tok', tok = c :: tok' := by
    cases tok with
    | nil => exact absurd rfl hne
    | cons c tok' => exact ⟨c, tok', rfl⟩
  have hc := htok c (by simp)
  rw [tsLoop_step_char orig _ i _ hc.1 hc.2]
  simp only [Option.getD_none, TSSt.startPos, TSSt.elementNum, TSSt.state]
  rw [show (⟨some i, some i, n, st⟩ : TSSt) = ⟨some i, some ((i + 1) - 1), n, st⟩ by simp]
  rw [tsLoop_last_mid orig tok' (i + 1) i n st (by omega) (fun d hd => htok d (by simp [hd]))]
  have e1 : i + 1 + tok'.length - 1 = i + (c :: tok').length - 1 := by
    simp only [List.length_cons]; omega
  rw [e1]

lemma joinComma_cons_cons (t t2 : List Char) (ts : List (List Char)) :
    joinComma (t :: t2 :: ts) = t ++ ',' :: joinComma (t2 :: ts) := rfl

lemma tsLoop_join (orig : List Char) :
    ∀ (toks : List (List Char)) (i n : Nat) (st : TState),
      toks ≠ [] →
      (∀ tk ∈ toks, tk ≠ [] ∧ ∀ c ∈ tk, c ≠ '\t' ∧ c ≠ ',') →
      List.drop i orig = joinComma toks →
      ∃ sp ep, tsLoop orig (joinComma toks) i ⟨none, none, n, st⟩ =
          some ⟨some sp, some ep, n + (toks.length - 1), toks.dropLast.foldl AddNewMember st⟩ ∧
        subList orig sp (ep - sp + 1) = (toks.getLast?).getD [] := by
  intro toks
  induction toks with
  | nil => intro i n st hne _ _; exact absurd rfl hne
  | cons t toks' ih =>
    intro i n st _ hclean halign
    cases toks' with
    | nil =>
      have ht := hclean t (by simp)
      refine ⟨i, i + t.length - 1, ?_, ?_⟩
      · show tsLoop orig t i ⟨none, none, n, st⟩ = _
        rw [tsLoop_last_fresh orig t i n st ht.1 ht.2]
        simp
      · have hlen : 1 ≤ t.length := by
          cases t with
          | nil => exact absurd rfl ht.1
          | cons a b => simp
        have e1 : i + t.length - 1 - i + 1 = t.length := by omega
        rw [e1]
        show subList orig i t.length = t
        have halign' : List.drop i orig = t := halign
        rw [subList, halign', List.take_length]
    | cons t2 ts =>
      have ht := hclean t (by simp)
      rw [joinComma_cons_cons] at halign ⊢
      rw [tsLoop_token_fresh orig t (joinComma (t2 :: ts)) i n st ht.1 ht.2]
      have hmem : subList orig i t.length = t := by
        rw [subList, halign]
        exact List.take_left t (',' :: joinComma (t2 :: ts))
      rw [hmem]
      have halign2 : List.drop (i + t.length + 1) orig = joinComma (t2 :: ts) := by
        have h1 : List.drop (t.length + 1) (List.drop i orig) = joinComma (t2 :: ts) := by
          rw [halign]
          have : List.drop (t.length + 1) (t ++ ',' :: joinComma (t2 :: ts)) =
              List.drop 1 (List.drop t.length (t ++ ',' :: joinComma (t2 :: ts))) := by
            rw [List.drop_drop]
          rw [this, List.drop_left]
          rfl
        rw [List.drop_drop] at h1
        rw [show i + t.length + 1 = i + (t.length + 1) by omega]
        exact h1
      obtain ⟨sp, ep, heq, hm⟩ := ih (i + t.length + 1) (n + 1)
        (AddNewMember st t) (by simp) (fun tk htk => hclean tk (by simp [htk])) halign2
      refine ⟨sp, ep, ?_, ?_⟩
      · rw [heq]
        have e1 : n + 1 + ((t2 :: ts).length - 1) = n + ((t :: t2 :: ts).length - 1) := by
          simp only [List.length_cons]; omega
        have e2 : (t2 :: ts).dropLast.foldl AddNewMember (AddNewMember st t) =
            ((t :: t2 :: ts).dropLast).foldl AddNewMember st := by
          rw [List.dropLast_cons₂, List.foldl_cons]
        rw [e1, e2]
      · rw [hm]
        rw [List.getLast?_cons_cons]

lemma extractTraceState_join (toks : List (List Char))
    (hclean : ∀ tk ∈ toks, tk ≠ [] ∧ ∀ c ∈ tk, c ≠ '\t' ∧ c ≠ ',') :
    ExtractTraceState (joinComma toks) =
      if 32 ≤ toks.length then none else some (toks.foldl AddNewMember []) := by
  cases hne : toks with
  | nil => rfl
  | cons t toks' =>
    rw [← hne]
    have hne' : toks ≠ [] := by rw [hne]; simp
    obtain ⟨sp, ep, heq, hm⟩ := tsLoop_join (joinComma toks) toks 0 0 [] hne' hclean (by rfl)
    unfold ExtractTraceState
    rw [heq]
    show (if 32 ≤ 0 + (toks.length - 1) + 1 then none
      else some (AddNewMember (toks.dropLast.foldl AddNewMember [])
        (subList (joinComma toks) sp (ep - sp + 1)))) = _
    rw [hm]
    have hfold : AddNewMember (toks.dropLast.foldl AddNewMember [])
        ((toks.getLast?).getD []) = toks.foldl AddNewMember [] := by
      have hlast : toks.getLast? = some (toks.getLast hne') := List.getLast?_eq_getLast toks hne'
      rw [hlast, Option.getD_some]
      conv_rhs => rw [← List.dropLast_append_getLast hne']
      rw [List.foldl_append]
      rfl
    rw [hfold]
    have hl : 0 + (toks.length - 1) + 1 = toks.length := by
      have : 1 ≤ toks.length := by rw [hne]; simp
      omega
    rw [hl]

lemma validateKey_facts (k : List Char) (h : validateKey k = true) :
    isNumberOrDigit (charAtD k 0) = true ∧ validateKeyLoop (k.drop 1) 0 = true := by
  unfold validateKey at h
  by_cases hc : 256 < k.length ∨ k.isEmpty = true ∨ ¬ isNumberOrDigit (charAtD k 0) = true
  · rw [if_pos hc] at h
    exact absurd h (by simp)
  · rw [if_neg hc] at h
    push_neg at hc
    exact ⟨by simpa using hc.2.2, h⟩

lemma validateKeyLoop_mem : ∀ (cs : List Char) (n : Nat), validateKeyLoop cs n = true →
    ∀ c ∈ cs, isNumberOrDigit c = true ∨ c = '_' ∨ c = '-' ∨ c = '@' ∨ c = '*' ∨ c = '/' := by
  intro cs
  induction cs with
  | nil =>
    intro n h c hc
    simp at hc
  | cons a cs' ih =>
    intro n h c hc
    unfold validateKeyLoop at h
    by_cases hbad : ¬ isNumberOrDigit a = true ∧ a ≠ '_' ∧ a ≠ '-' ∧ a ≠ '@' ∧ a ≠ '*' ∧ a ≠ '/'
    · rw [if_pos hbad] at h
      exact absurd h (by simp)
    · rw [if_neg hbad] at h
      have ha : isNumberOrDigit a = true ∨ a = '_' ∨ a = '-' ∨ a = '@' ∨ a = '*' ∨ a = '/' := by
        by_cases h1 : isNumberOrDigit a = true
        · exact Or.inl h1
        · by_cases h2 : a = '_'
          · exact Or.inr (Or.inl h2)
          · by_cases h3 : a = '-'
            · exact Or.inr (Or.inr (Or.inl h3))
            · by_cases h4 : a = '@'
              · exact Or.inr (Or.inr (Or.inr (Or.inl h4)))
              · by_cases h5 : a = '*'
                · exact Or.inr (Or.inr (Or.inr (Or.inr (Or.inl h5))))
                · by_cases h6 : a = '/'
                  · exact Or.inr (Or.inr (Or.inr (Or.inr (Or.inr h6))))
                  · exact absurd ⟨h1, h2, h3, h4, h5, h6⟩ hbad
      rcases List.mem_cons.mp hc with rfl | hc'
      · exact ha
      · by_cases h4 : a = '@'
        · rw [if_pos h4] at h
          by_cases h5 : 1 < n + 1
          · rw [if_pos h5] at h
            exact absurd h (by simp)
          · rw [if_neg h5] at h
            exact ih (n + 1) h c hc'
        · rw [if_neg h4] at h
          exact ih n h c hc'

lemma keyChar_clean (c : Char)
    (h : isNumberOrDigit c = true ∨ c = '_' ∨ c = '-' ∨ c = '@' ∨ c = '*' ∨ c = '/') :
    c ≠ '\t' ∧ c ≠ ',' ∧ c ≠ '=' := by
  rcases h with h | rfl | rfl | rfl | rfl | rfl
  · refine ⟨?_, ?_, ?_⟩ <;> rintro rfl <;> exact absurd h (by decide)
  all_goals exact ⟨by decide, by decide, by decide⟩

lemma validateKey_chars (k : List Char) (h : validateKey k = true) :
    ∀ c ∈ k, c ≠ '\t' ∧ c ≠ ',' ∧ c ≠ '=' := by
  intro c hc
  obtain ⟨h0, hloop⟩ := validateKey_facts k h
  cases k with
  | nil => simp at hc
  | cons a rest =>
    rcases List.mem_cons.mp hc with rfl | hc'
    · have hn : isNumberOrDigit c = true := by simpa [charAtD] using h0
      exact keyChar_clean c (Or.inl hn)
    · exact keyChar_clean c (validateKeyLoop_mem rest 0 hloop c hc')

lemma validateValueOk_chars (v : List Char) (h : validateValueOk v = true) :
    ∀ c ∈ v, c ≠ '\t' ∧ c ≠ ',' ∧ c ≠ '=' := by
  intro c hc
  unfold validateValueOk at h
  simp only [Bool.and_eq_true] at h
  have hall := h.1.2
  rw [List.all_eq_true] at hall
  have hcf := hall c hc
  simp only [Bool.and_eq_true, decide_eq_true_eq] at hcf
  obtain ⟨⟨⟨h32, h126⟩, hcm⟩, heq⟩ := hcf
  refine ⟨?_, hcm, heq⟩
  rintro rfl
  exact absurd h32 (by decide)

lemma memberText_clean (m : List Char × List Char) (hk : validateKey m.1 = true)
    (hv : validateValueOk m.2 = true) :
    memberText m ≠ [] ∧ ∀ c ∈ memberText m, c ≠ '\t' ∧ c ≠ ',' := by
  constructor
  · simp [memberText]
  · intro c hc
    simp only [memberText] at hc
    rcases List.mem_append.mp hc with hck | hcv
    · have h := validateKey_chars m.1 hk c hck
      exact ⟨h.1, h.2.1⟩
    · rcases List.mem_cons.mp hcv with rfl | hcv'
      · exact ⟨by decide, by decide⟩
      · have h := validateValueOk_chars m.2 hv c hcv'
        exact ⟨h.1, h.2.1⟩

lemma firstEqIdx_no : ∀ (m : List Char) (n : Nat), (∀ c ∈ m, c ≠ '=') →
    firstEqIdx m n = none := by
  intro m
  induction m with
  | nil => intro n _; rfl
  | cons c cs ih =>
    intro n h
    unfold firstEqIdx
    rw [if_neg (h c (by simp))]
    exact ih (n + 1) (fun d hd => h d (by simp [hd]))

lemma firstEqIdx_append : ∀ (k v : List Char) (n : Nat), (∀ c ∈ k, c ≠ '=') →
    firstEqIdx (k ++ '=' :: v) n = some (n + k.length) := by
  intro k
  induction k with
  | nil =>
    intro v n _
    simp [firstEqIdx]
  | cons c cs ih =>
    intro v n h
    rw [List.cons_append]
    unfold firstEqIdx
    rw [if_neg (h c (by simp))]
    rw [ih v (n + 1) (fun d hd => h d (by simp [hd]))]
    congr 1
    simp only [List.length_cons]
    omega

lemma AddNewMember_memberText (st : TState) (k v : List Char) (hk : ∀ c ∈ k, c ≠ '=') :
    AddNewMember st (memberText (k, v)) = TStateSet st k v := by
  unfold AddNewMember memberText
  rw [firstEqIdx_append k v 0 hk]
  show TStateSet st ((k ++ '=' :: v).take (0 + k.length)) ((k ++ '=' :: v).drop (0 + k.length + 1)) =
    TStateSet st k v
  have h1 : (k ++ '=' :: v).take (0 + k.length) = k := by
    simp only [Nat.zero_add]
    exact List.take_left k ('=' :: v)
  have h2 : (k ++ '=' :: v).drop (0 + k.length + 1) = v := by
    have ha : k ++ '=' :: v = (k ++ ['=']) ++ v := by simp
    have hlen : k.length + 1 = (k ++ ['=']).length := by simp
    rw [ha]
    simp only [Nat.zero_add]
    rw [hlen, List.drop_left]
  rw [h1, h2]

lemma AddNewMember_noEq (st : TState) (m : List Char) (h : ∀ c ∈ m, c ≠ '=') :
    AddNewMember st m = st := by
  unfold AddNewMember
  rw [firstEqIdx_no m 0 h]

lemma removeFirstKey_self : ∀ (st : TState) (k : List Char), (∀ e ∈ st, e.1 ≠ k) →
    removeFirstKey st k = st := by
  intro st
  induction st with
  | nil => intro k _; rfl
  | cons e es ih =>
    intro k h
    unfold removeFirstKey
    rw [if_neg (h e (by simp))]
    rw [ih k (fun d hd => h d (by simp [hd]))]

lemma TStateSet_fresh (st : TState) (k v : List Char) (hk : validateKey k = true)
    (hv : validateValueOk v = true) (hnm : ∀ e ∈ st, e.1 ≠ k) :
    TStateSet st k v = (k, v) :: st := by
  unfold TStateSet
  rw [if_pos (by rw [hk, hv]; rfl), removeFirstKey_self st k hnm]

lemma foldl_members : ∀ (ms : List (List Char × List Char)) (acc : TState),
    (∀ m ∈ ms, validateKey m.1 = true ∧ validateValueOk m.2 = true) →
    (ms.map Prod.fst).Nodup →
    (∀ m ∈ ms, ∀ e ∈ acc, e.1 ≠ m.1) →
    (ms.map memberText).foldl AddNewMember acc = ms.reverse ++ acc := by
  intro ms
  induction ms with
  | nil => intro acc _ _ _; rfl
  | cons m ms' ih =>
    intro acc hval hnodup hdisj
    obtain ⟨k, v⟩ := m
    rw [List.map_cons, List.nodup_cons] at hnodup
    simp only [List.map_cons, List.foldl_cons]
    have hkv := hval (k, v) (by simp)
    have hkeq : ∀ c ∈ k, c ≠ '=' := fun c hc => (validateKey_chars k hkv.1 c hc).2.2
    rw [AddNewMember_memberText acc k v hkeq]
    rw [TStateSet_fresh acc k v hkv.1 hkv.2 (fun e he => hdisj (k, v) (by simp) e he)]
    rw [ih ((k, v) :: acc) (fun m2 hm2 => hval m2 (by simp [hm2]))
      hnodup.2 ?hdisj2]
    · simp
    case hdisj2 =>
      intro m2 hm2 e he
      rcases List.mem_cons.mp he with rfl | he'
      · show (k, v).1 ≠ m2.1
        intro heq
        exact hnodup.1 (heq ▸ List.mem_map_of_mem Prod.fst hm2)
      · exact hdisj m2 (by simp [hm2]) e he'

/-- The canonical example traceparent header value. -/
def canonTP55 : List Char := "00-4bf92f3577b34da6a3ce929d0e0e4736-00f067aa0ba902b7-01".toList

/-- The span context the code extracts from `canonTP55` (identifier bytes
decoded by the raw-character-code scheme of `byteFromChars`). -/
def scCanon : SpanContext :=
  ⟨[162, 153, 134, 101, 167, 83, 164, 70, 67, 149, 194, 244, 101, 101, 119, 102],
    [48, 144, 151, 113, 98, 73, 50, 87], 49, [], true⟩

lemma ecftp_canon : ExtractContextFromTraceParent canonTP55 = scCanon := by decide

lemma extractImpl_canon (ts : List Char) (hne : ts ≠ []) :
    ExtractImpl ⟨canonTP55, ts⟩ =
      match ExtractTraceState ts with
      | none => scCanon
      | some st => ⟨scCanon.traceId, scCanon.spanId, scCanon.traceFlags, st, true⟩ := by
  have hcne : ¬ canonTP55 = [] := by decide
  unfold ExtractImpl
  rw [if_neg (show ¬ (Carrier.mk canonTP55 ts).traceparent = [] from hcne)]
  show (if ¬ (ExtractContextFromTraceParent canonTP55).IsValid = true
      then ExtractContextFromTraceParent canonTP55 else _) = _
  rw [ecftp_canon]
  rw [if_neg (show ¬ ¬ SpanContext.IsValid scCanon = true by decide)]
  rw [if_neg (show ¬ (Carrier.mk canonTP55 ts).tracestate = [] from hne)]

lemma joinComma_map_ne_nil (ms : List (List Char × List Char)) (hne : ms ≠ []) :
    joinComma (ms.map memberText) ≠ [] := by
  cases ms with
  | nil => exact absurd rfl hne
  | cons m ms' =>
    cases ms' with
    | nil => simp [joinComma, memberText]
    | cons m2 ms'' => simp [joinComma, memberText]

/-- C8 counterexample input: 32 well-formed, distinct-key members. -/
def members32 : List (List Char × List Char) :=
  (List.range 32).map (fun n => (['k', Char.ofNat (97 + n % 26), Char.ofNat (97 + n / 26)], ['1']))

/-- C8 counterexample: a tracestate header consisting of exactly 32
well-formed, distinct-key members — the claim says parsing succeeds and
yields all of them — is rejected as a unit by the code (`element_num >= 32`
throws), so extraction keeps the traceparent-derived fields with an empty
trace state. -/
theorem C8_member_limit_counterexample :
    members32.length = 32 ∧
    (∀ m ∈ members32, validateKey m.1 = true ∧ validateValueOk m.2 = true) ∧
    (members32.map Prod.fst).Nodup ∧
    ExtractTraceState (joinComma (members32.map memberText)) = none ∧
    ExtractImpl ⟨canonTP55, joinComma (members32.map memberText)⟩ = scCanon ∧
    scCanon.traceState = [] := by
  set_option maxRecDepth 4096 in decide

/-- C8 amended: a tracestate header of well-formed, distinct-key members
parses to all of its members (in front-insertion order, i.e. reversed wire
order) whenever their count is at most 31, and fails as a whole whenever
their count is 32 or more — the source throws already at
`element_num >= 32` — in which case extraction keeps the
traceparent-derived fields (here those of the canonical header) with a
trace state of zero entries. -/
theorem C8_member_limit_amended (ms : List (List Char × List Char))
    (hval : ∀ m ∈ ms, validateKey m.1 = true ∧ validateValueOk m.2 = true)
    (hnodup : (ms.map Prod.fst).Nodup) :
    ExtractTraceState (joinComma (ms.map memberText)) =
      (if 32 ≤ ms.length then none else some ms.reverse) ∧
    (ms ≠ [] → ExtractImpl ⟨canonTP55, joinComma (ms.map memberText)⟩ =
      if 32 ≤ ms.length then scCanon
      else ⟨scCanon.traceId, scCanon.spanId, scCanon.traceFlags, ms.reverse, true⟩) := by
  have hclean : ∀ tk ∈ ms.map memberText, tk ≠ [] ∧ ∀ c ∈ tk, c ≠ '\t' ∧ c ≠ ',' := by
    intro tk htk
    obtain ⟨m, hm, rfl⟩ := List.mem_map.mp htk
    exact memberText_clean m (hval m hm).1 (hval m hm).2
  have h1 : ExtractTraceState (joinComma (ms.map memberText)) =
      if 32 ≤ ms.length then none else some ms.reverse := by
    rw [extractTraceState_join (ms.map memberText) hclean]
    rw [foldl_members ms [] hval hnodup (by simp)]
    simp only [List.length_map, List.append_nil]
  refine ⟨h1, fun hne => ?_⟩
  rw [extractImpl_canon (joinComma (ms.map memberText)) (joinComma_map_ne_nil ms hne)]
  rw [h1]
  by_cases hlen : 32 ≤ ms.length
  · rw [if_pos hlen, if_pos hlen]
  · rw [if_neg hlen, if_neg hlen]

/-- C8 witness: the amended statement at one concrete member. -/
theorem C8_member_limit_witness :
    ((∀ m ∈ [((['a'], ['1']) : List Char × List Char)],
        validateKey m.1 = true ∧ validateValueOk m.2 = true) ∧
      (([((['a'], ['1']) : List Char × List Char)].map Prod.fst)).Nodup) ∧
    (ExtractTraceState (joinComma ([((['a'], ['1']) : List Char × List Char)].map memberText)) =
        (if 32 ≤ [((['a'], ['1']) : List Char × List Char)].length then none
          else some [((['a'], ['1']) : List Char × List Char)].reverse) ∧
      ([((['a'], ['1']) : List Char × List Char)] ≠ [] →
        ExtractImpl ⟨canonTP55,
            joinComma ([((['a'], ['1']) : List Char × List Char)].map memberText)⟩ =
          if 32 ≤ [((['a'], ['1']) : List Char × List Char)].length then scCanon
          else ⟨scCanon.traceId, scCanon.spanId, scCanon.traceFlags,
            [((['a'], ['1']) : List Char × List Char)].reverse, true⟩)) :=
  ⟨⟨by decide, by decide⟩, C8_member_limit_amended [((['a'], ['1']))] (by decide) (by decide)⟩

/-- C4 counterexample: the tracestate header `"a=b,junk"` contains a member
with no `'='` — per the claim the entire parse must fail as a unit, yielding
a trace state of zero entries — yet the code silently skips `"junk"`
(`AddNewMember` returns without doing anything) and keeps the entry from
`"a=b"`: extraction yields a partially populated trace state. -/
theorem C4_malformed_member_counterexample :
    ExtractTraceState ("a=b,junk".toList) = some [(['a'], ['b'])] ∧
    ExtractImpl ⟨canonTP55, "a=b,junk".toList⟩ =
      ⟨scCanon.traceId, scCanon.spanId, scCanon.traceFlags, [(['a'], ['b'])], true⟩ ∧
    [((['a'], ['b']) : List Char × List Char)] ≠ [] := by
  decide

/-- C4 amended: a tracestate member with no `'='` does not fail the parse as
a unit — it is skipped (while still counting toward the member limit) and
the surrounding well-formed members are parsed as if it were not there, so
the resulting trace state can be partially populated; with fewer than 32
members overall the parse succeeds with exactly the well-formed members. -/
theorem C4_malformed_member_amended (ms1 ms2 : List (List Char × List Char))
    (junk : List Char)
    (hval : ∀ m ∈ ms1 ++ ms2, validateKey m.1 = true ∧ validateValueOk m.2 = true)
    (hnodup : ((ms1 ++ ms2).map Prod.fst).Nodup)
    (hj1 : junk ≠ []) (hj2 : ∀ c ∈ junk, c ≠ '\t' ∧ c ≠ ',' ∧ c ≠ '=')
    (hcount : ms1.length + ms2.length + 1 < 32) :
    ExtractTraceState (joinComma (ms1.map memberText ++ junk :: ms2.map memberText)) =
      some ((ms1 ++ ms2).reverse) := by
  have hclean : ∀ tk ∈ ms1.map memberText ++ junk :: ms2.map memberText,
      tk ≠ [] ∧ ∀ c ∈ tk, c ≠ '\t' ∧ c ≠ ',' := by
    intro tk htk
    rcases List.mem_append.mp htk with h1 | h2
    · obtain ⟨m, hm, rfl⟩ := List.mem_map.mp h1
      exact memberText_clean m (hval m (List.mem_append.mpr (Or.inl hm))).1
        (hval m (List.mem_append.mpr (Or.inl hm))).2
    · rcases List.mem_cons.mp h2 with rfl | h3
      · exact ⟨hj1, fun c hc => ⟨(hj2 c hc).1, (hj2 c hc).2.1⟩⟩
      · obtain ⟨m, hm, rfl⟩ := List.mem_map.mp h3
        exact memberText_clean m (hval m (List.mem_append.mpr (Or.inr hm))).1
          (hval m (List.mem_append.mpr (Or.inr hm))).2
  rw [extractTraceState_join _ hclean]
  have hlen : (ms1.map memberText ++ junk :: ms2.map memberText).length =
      ms1.length + ms2.length + 1 := by
    simp only [List.length_append, List.length_map, List.length_cons]
    omega
  rw [if_neg (by rw [hlen]; omega)]
  congr 1
  rw [List.foldl_append, List.foldl_cons]
  rw [AddNewMember_noEq _ junk (fun c hc => (hj2 c hc).2.2)]
  rw [← List.foldl_append, ← List.map_append]
  rw [foldl_members (ms1 ++ ms2) [] hval hnodup (by simp)]
  simp only [List.append_nil]

/-- C4 witness: the amended statement at `ms1 = [("a","b")]`, `ms2 = []`,
`junk = "junk"` — the header `"a=b,junk"`. -/
theorem C4_malformed_member_witness :
    ((∀ m ∈ [((['a'], ['b']) : List Char × List Char)] ++ ([] : List (List Char × List Char)),
        validateKey m.1 = true ∧ validateValueOk m.2 = true) ∧
      ((([((['a'], ['b']) : List Char × List Char)]
        ++ ([] : List (List Char × List Char))).map Prod.fst)).Nodup ∧
      "junk".toList ≠ [] ∧ (∀ c ∈ "junk".toList, c ≠ '\t' ∧ c ≠ ',' ∧ c ≠ '=') ∧
      [((['a'], ['b']) : List Char × List Char)].length
        + ([] : List (List Char × List Char)).length + 1 < 32) ∧
    ExtractTraceState (joinComma ([((['a'], ['b']) : List Char × List Char)].map memberText
        ++ "junk".toList :: ([] : List (List Char × List Char)).map memberText)) =
      some (([((['a'], ['b']) : List Char × List Char)]
        ++ ([] : List (List Char × List Char))).reverse) :=
  ⟨⟨by decide, by decide, by decide, by decide, by decide⟩,
    C4_malformed_member_amended [((['a'], ['b']))] [] ("junk".toList) (by decide) (by decide)
      (by decide) (by decide) (by decide)⟩
